import Mathlib

/-!
Verification development for the DNNL ODLA backend (`ODLA/platforms/odla_dnnl.cc`)
and the constant-storage constructor (`lib/ir/constant.cc`).

The C++ sources are shallowly embedded: the computation state (`_odla_computation`
plus the thread-local mode flags) becomes an explicit record threaded through the
op-lowering functions, dnnl memory objects become descriptor/handle records,
caller-visible byte memory becomes an explicit heap, and debug assertions become
an explicit abort outcome (the model is the debug build; `NDEBUG` builds skip the
checks entirely, which is noted where relevant).  The opaque format preferences of
the dnnl convolution primitive descriptor are a parameter (`ConvOracle`).
-/

/-- Product of all dimension entries of a shape (source: `GetTotalElements`,
`odla_dnnl.cc` lines 98-101). -/
def totalElements (dims : List Nat) : Nat := dims.foldr (· * ·) 1

/-- Row-major, last-dimension-contiguous strides of a shape (source:
`getStrides`, `odla_dnnl.cc` lines 104-110): entry i is the product of the
dimensions after i; the last entry is 1. -/
def getStrides : List Nat → List Nat
  | [] => []
  | _ :: t => totalElements t :: getStrides t

/-- Dot product of a multi-index with a stride vector: the flat element offset
the dnnl memory descriptors address. -/
def dot : List Nat → List Nat → Nat
  | [], _ => 0
  | _ :: _, [] => 0
  | a :: as, b :: bs => a * b + dot as bs

/-- Mixed-radix decomposition of a flat row-major offset into a multi-index
for the given shape. -/
def unflatten : List Nat → Nat → List Nat
  | [], _ => []
  | _ :: t, n => n / totalElements t :: unflatten t (n % totalElements t)

/-- Overwrite the first `repl.length` entries of `base` with `repl`, keeping
`base`'s length (models the element-wise stores into a fixed-size stride array
at `odla_dnnl.cc` lines 350-351 and 470-471). -/
def overwriteFront (base repl : List Nat) : List Nat :=
  (repl ++ base.drop repl.length).take base.length

/-- First `n` bytes of `src` copied over the start of `dst` (C `memcpy`
semantics for an in-bounds copy). -/
def memcpyBytes (dst src : List Nat) (n : Nat) : List Nat :=
  src.take n ++ dst.drop n

/-- Native element types of the dnnl memory descriptors
(`dnnl::memory::data_type`). -/
inductive DataType
  | f32
  | s32
  | bf16
  | undefType
deriving DecidableEq

/-- Size in bytes of one element of each native data type. -/
def byteSize : DataType → Nat
  | .f32 => 4
  | .s32 => 4
  | .bf16 => 2
  | .undefType => 0

/-- Abstract ODLA element types (the subset this backend dispatches on). -/
inductive OdlaElementType
  | float32
  | int32
  | int64
  | bfloat16
deriving DecidableEq

/-- Source: `getDataType`, `odla_dnnl.cc` lines 112-131.  INT64 is narrowed to
32-bit native storage (the FIXME in the source). -/
def getDataType : OdlaElementType → DataType
  | .float32 => .f32
  | .int32 => .s32
  | .int64 => .s32
  | .bfloat16 => .bf16

/-- The `dnnl::memory::format_tag` values reachable from the shape overload of
`getFormatTag`. -/
inductive FormatTag
  | undefTag
  | a
  | ab
  | abc
  | abcd
  | abcde
  | abcdef
deriving DecidableEq

/-- The static tag table of `getFormatTag` (`odla_dnnl.cc` lines 67-72). -/
def formatTagTable : List FormatTag :=
  [.undefTag, .a, .ab, .abc, .abcd, .abcde, .abcdef]

/-- Source: `getFormatTag(const odla_value_shape&)`, `odla_dnnl.cc` lines
66-74: `(od.size <= 0 || od.size > 6) ? tags[0] : tags[od.size]`. -/
def getFormatTag (od : List Nat) : FormatTag :=
  if od.length ≤ 0 ∨ 6 < od.length then formatTagTable.getD 0 .undefTag
  else formatTagTable.getD od.length .undefTag

/-- Canonical packed row-major format descriptor of a given rank, following
the spec's words (§4.1). -/
def packedTagOfRank : Nat → FormatTag
  | 1 => .a
  | 2 => .ab
  | 3 => .abc
  | 4 => .abcd
  | 5 => .abcde
  | 6 => .abcdef
  | _ => .undefTag

/-- Spec-side resolver (§4.1 `resolveFormat(shape)`), stated on the rank:
rank 1-6 maps to the canonical packed format of that rank, rank 0 or above 6
yields the undefined-format result. -/
def specResolveFormat (r : Nat) : FormatTag :=
  if 1 ≤ r ∧ r ≤ 6 then packedTagOfRank r else FormatTag.undefTag

/-- Model of a dnnl memory descriptor: logical dims, native data type, and the
strides through which the buffer is addressed. -/
structure MemDesc where
  dims : List Nat
  dataType : DataType
  strides : List Nat
deriving DecidableEq

/-- Model of a `dnnl::memory` object: a descriptor plus the data handle (a
buffer id standing for the C pointer). -/
structure DnnlMemory where
  desc : MemDesc
  handle : Nat
deriving DecidableEq

/-- `get_desc().get_size()`: total bytes covered by a packed descriptor. -/
def descSize (m : DnnlMemory) : Nat :=
  totalElements m.desc.dims * byteSize m.desc.dataType

/-- Packed memory descriptor from a shape and an abstract element type
(source: `getMemoryDesc`, `odla_dnnl.cc` lines 138-150). -/
def getMemoryDesc (shape : List Nat) (ty : OdlaElementType) : MemDesc :=
  { dims := shape, dataType := getDataType ty, strides := getStrides shape }

/-- ODLA value type: declared element type plus shape. -/
structure ValueType where
  element_type : OdlaElementType
  shape : List Nat
deriving DecidableEq

/-- Model of `_odla_value` (`odla_dnnl.cc` lines 35-43). -/
structure Value where
  mem : DnnlMemory
  is_const : Bool
  shape : List Nat
  name : String
deriving DecidableEq

/-- ODLA status surface: only the success status is ever produced by this
backend. -/
inductive Status
  | success
deriving DecidableEq

/-- Memory layout tags (`odla_memory_layout`). -/
inductive Layout
  | channels_first
  | channels_last
  | sio
  | ois
  | ios
deriving DecidableEq

/-- Binary elementwise algorithms used by `odla_Add` / `odla_Mul`. -/
inductive BinAlgo
  | add
  | mul
deriving DecidableEq

/-- Named dnnl execution-argument slots used in the modeled plan entries
(`DNNL_ARG_SRC_0` / `_SRC_1` / `_DST` / `_WEIGHTS`; `FROM` and `TO` alias
`SRC_0` and `DST`). -/
inductive ArgKind
  | src0
  | src1
  | dst
  | weights
deriving DecidableEq

/-- One per-entry argument binding map (argument slot to buffer handle). -/
abbrev ArgMap := List (ArgKind × Nat)

/-- Tokens for the native primitives appended to the plan.  The conv-family
repacks to and from the library-preferred opaque formats carry no descriptor
because those formats are opaque to the backend. -/
inductive Prim
  | binary (algo : BinAlgo) (lhs rhs dst : MemDesc)
  | reorder (src dst : MemDesc)
  | reorderToPreferred
  | reorderFromPreferred
  | convForward (src wei dst : List Nat)
  | deconvForward (src wei dst : List Nat)
  | matmul (lhs rhs dst : MemDesc)
deriving DecidableEq

/-- Model of `_odla_computation` plus the thread-local mode flags
(`odla_dnnl.cc` lines 49-59 and 157-169): the plan (primitives with parallel
per-entry args), the value registry arena, the named input/output tables, the
precision option, the interpreter build/mode flags, and a trace of primitives
already executed in immediate mode.  `nextBuf` is a fresh-buffer allocator for
engine-allocated dnnl memory. -/
structure Comp where
  primitives : List Prim
  args : List ArgMap
  vals : List Value
  inputs : List (String × Value)
  outputs : List (String × Value)
  enable_bf16 : Bool
  nextBuf : Nat
  interpreterBuild : Bool
  interpretMode : Bool
  executed : List Prim
deriving DecidableEq

/-- Result of an op-lowering call in the debug-build model: either the call
runs to completion, or a debug assertion fails and the process aborts with the
computation in the carried state.  (NDEBUG builds skip the check entirely; no
error status is ever returned — the op-lowering functions return a value
handle, not a status.) -/
inductive OpResult (α : Type)
  | aborted (c : Comp)
  | returns (a : α)
deriving DecidableEq

/-- Outcome of a call whose debug assertion does not touch computation
state. -/
inductive AssertOr (α : Type)
  | assertionAborted
  | returns (a : α)

/-- Caller-visible byte memory: buffer id to byte list. -/
abbrev Heap := Nat → List Nat

/-- Unordered-map style insert-or-replace for the named input/output tables. -/
def mapInsert (m : List (String × Value)) (k : String) (v : Value) :
    List (String × Value) :=
  (k, v) :: m.filter (fun p => p.1 != k)

/-- Source: `CreateValue`, `odla_dnnl.cc` lines 171-179: build a `_odla_value`
and append it to the active computation's registry arena. -/
def CreateValue (c : Comp) (mem : DnnlMemory) (shape : List Nat)
    (id : Option String) : Comp × Value :=
  let v : Value := { mem := mem, is_const := false, shape := shape, name := id.getD "" }
  ({ c with vals := c.vals ++ [v] }, v)

/-- Source: `InterpretIfNeeded`, `odla_dnnl.cc` lines 224-243: in an
interpreter build with interpret mode on, execute the plan accumulated so far
(recorded on the `executed` trace) and clear both the plan and the per-entry
bindings. -/
def InterpretIfNeeded (c : Comp) : Comp :=
  if c.interpreterBuild then
    if c.interpretMode then
      { c with executed := c.executed ++ c.primitives, primitives := [], args := [] }
    else c
  else c

/-- Source: `odla_CreateArgument`, `odla_dnnl.cc` lines 245-252.  The memory
descriptor is built with `ODLA_FLOAT32` regardless of the declared element
type, and the value is registered in the named input table. -/
def odla_CreateArgument (c : Comp) (type : ValueType) (id : String) :
    Comp × Value :=
  let md := getMemoryDesc type.shape OdlaElementType.float32
  let mem : DnnlMemory := { desc := md, handle := c.nextBuf }
  let c0 := { c with nextBuf := c.nextBuf + 1 }
  let p := CreateValue c0 mem type.shape (some id)
  ({ p.1 with inputs := mapInsert p.1.inputs id p.2 }, p.2)

/-- Source: `odla_GetValueType`, `odla_dnnl.cc` lines 260-265: reports
`ODLA_FLOAT32` unconditionally, and the stored shape. -/
def odla_GetValueType (value : Value) : Status × ValueType :=
  (Status.success, { element_type := OdlaElementType.float32, shape := value.shape })

/-- Source: `odla_CreateConstant`, `odla_dnnl.cc` lines 293-304: the memory
descriptor uses the declared element type, the memory wraps the caller-owned
pointer, and the value is marked constant.  (The source builds the value via
`CreateValue` and then sets `is_const` through the returned pointer; the model
pushes the already-marked value.) -/
def odla_CreateConstant (c : Comp) (type : ValueType) (ptr : Nat)
    (id : Option String) : Comp × Value :=
  let md := getMemoryDesc type.shape type.element_type
  let mem : DnnlMemory := { desc := md, handle := ptr }
  let v : Value := { mem := mem, is_const := true, shape := type.shape, name := id.getD "" }
  ({ c with vals := c.vals ++ [v] }, v)

/-- Source: `odla_SetValueAsOutput`, `odla_dnnl.cc` lines 306-308.  The
function is declared to return `odla_status` but its body ends without a
return statement; the (absent) produced status is modeled as `none`. -/
def odla_SetValueAsOutput (c : Comp) (val : Value) : Comp × Option Status :=
  ({ c with outputs := mapInsert c.outputs val.name val }, none)

/-- Source: `odla_GetValueData`, `odla_dnnl.cc` lines 279-283: asserts
interpret mode (debug abort otherwise), memcpys `get_desc().get_size()` bytes
out of the value's buffer into the caller's buffer, and ends without a return
statement (modeled status `none`). -/
def odla_GetValueData (interpretMode : Bool) (value : Value) (dataPtr : Nat)
    (heap : Heap) : AssertOr (Option Status × Heap) :=
  if interpretMode then
    AssertOr.returns (none,
      fun b => if b = dataPtr
               then memcpyBytes (heap dataPtr) (heap value.mem.handle) (descSize value.mem)
               else heap b)
  else AssertOr.assertionAborted

/-- Source: `odla_BindToOutput`, `odla_dnnl.cc` lines 310-320: a constant
output is copied (`memcpy` of desc-size bytes) into the caller's buffer while
the value keeps its own data handle; a non-constant output has its data handle
repointed to the caller's buffer with no copy.  Returns `ODLA_SUCCESS`. -/
def odla_BindToOutput (value : Value) (dataPtr : Nat) (heap : Heap) :
    Status × Value × Heap :=
  if value.is_const then
    (Status.success, value,
      fun b => if b = dataPtr
               then memcpyBytes (heap dataPtr) (heap value.mem.handle) (descSize value.mem)
               else heap b)
  else
    (Status.success, { value with mem := { value.mem with handle := dataPtr } }, heap)

/-- Shared tail of `binary_eltwise` (`odla_dnnl.cc` lines 355-366): push the
binary primitive, register the result value under the left operand's shape,
push the argument bindings, then `InterpretIfNeeded`. -/
def binaryFinish (algo : BinAlgo) (c : Comp) (lhs rhs : Value)
    (lhsMd rhsMd : MemDesc) (retMem : DnnlMemory) (id : Option String) :
    OpResult (Comp × Value) :=
  let c1 := { c with primitives := c.primitives ++ [Prim.binary algo lhsMd rhsMd lhsMd] }
  let p := CreateValue c1 retMem lhs.shape id
  let c2 := { p.1 with args := p.1.args ++
      [[(ArgKind.src0, lhs.mem.handle), (ArgKind.src1, rhs.mem.handle), (ArgKind.dst, retMem.handle)]] }
  OpResult.returns (InterpretIfNeeded c2, p.2)

/-- Source: `binary_eltwise`, `odla_dnnl.cc` lines 329-367.  The destination
memory is allocated first (line 337).  With mismatched ranks, the debug
assertion `ln >= rn && ln % rn == 0` (line 345) guards the trailing-aligned
broadcast; past it, the right operand is viewed through the left operand's
packed descriptor whose strides are overwritten with zeros followed by the
right operand's row-major strides (lines 346-351).  With equal ranks and equal
element counts both operands use the left operand's packed descriptor;
otherwise the right operand's own descriptor is kept. -/
def binary_eltwise (algo : BinAlgo) (c : Comp) (lhs rhs : Value)
    (id : Option String) : OpResult (Comp × Value) :=
  let dimsLhs := lhs.shape
  let dimsRhs := rhs.shape
  let lhsMd : MemDesc :=
    { dims := dimsLhs, dataType := lhs.mem.desc.dataType, strides := getStrides dimsLhs }
  let retMem : DnnlMemory := { desc := lhsMd, handle := c.nextBuf }
  let c0 := { c with nextBuf := c.nextBuf + 1 }
  let ln := totalElements dimsLhs
  let rn := totalElements dimsRhs
  if dimsLhs.length ≠ dimsRhs.length then
    if rn ≤ ln ∧ ln % rn = 0 then
      let bStrides := List.replicate (dimsLhs.length - dimsRhs.length) 0 ++ getStrides dimsRhs
      let rhsMd := { lhsMd with strides := overwriteFront lhsMd.strides bStrides }
      binaryFinish algo c0 lhs rhs lhsMd rhsMd retMem id
    else OpResult.aborted c0
  else if ln = rn then
    binaryFinish algo c0 lhs rhs lhsMd lhsMd retMem id
  else
    binaryFinish algo c0 lhs rhs lhsMd rhs.mem.desc retMem id

/-- Source: `odla_Add`, `odla_dnnl.cc` lines 369-371. -/
def odla_Add (c : Comp) (lhs rhs : Value) (id : Option String) :
    OpResult (Comp × Value) :=
  binary_eltwise BinAlgo.add c lhs rhs id

/-- Source: `odla_Mul`, `odla_dnnl.cc` lines 373-375. -/
def odla_Mul (c : Comp) (lhs rhs : Value) (id : Option String) :
    OpResult (Comp × Value) :=
  binary_eltwise BinAlgo.mul c lhs rhs id

/-- Strided source descriptor built by `odla_Transpose` (`odla_dnnl.cc` lines
467-473): the input's row-major strides permuted entry-wise by the permutation
(`new_strides[i] = strides[permutations.dims[i]]`), laid over the declared
output dims. -/
def transposeSrcMd (inputShape : List Nat) (dt : DataType)
    (permutations outputDims : List Nat) : MemDesc :=
  let strides := getStrides inputShape
  { dims := outputDims, dataType := dt,
    strides := overwriteFront strides (permutations.map fun p => strides.getD p 0) }

/-- Packed destination descriptor of `odla_Transpose` (lines 474-475). -/
def transposeDstMd (dt : DataType) (outputDims : List Nat) : MemDesc :=
  { dims := outputDims, dataType := dt, strides := getStrides outputDims }

/-- Source: `odla_Transpose`, `odla_dnnl.cc` lines 464-483: queue a reorder
from the permuted-stride view of the input buffer into a freshly allocated
packed buffer of the declared output shape.  Note: no `InterpretIfNeeded`
call. -/
def odla_Transpose (c : Comp) (input : Value) (permutations outputDims : List Nat)
    (id : Option String) : Comp × Value :=
  let srcMd := transposeSrcMd input.shape input.mem.desc.dataType permutations outputDims
  let dstMd := transposeDstMd input.mem.desc.dataType outputDims
  let dstMem : DnnlMemory := { desc := dstMd, handle := c.nextBuf }
  let c0 := { c with nextBuf := c.nextBuf + 1 }
  let c1 := { c0 with primitives := c0.primitives ++ [Prim.reorder srcMd dstMd] }
  let c2 := { c1 with args := c1.args ++ [[(ArgKind.src0, input.mem.handle), (ArgKind.dst, dstMem.handle)]] }
  CreateValue c2 dstMem outputDims id

/-- Source: `odla_Reshape`, `odla_dnnl.cc` lines 485-488: one new registry
entry sharing the input's dnnl memory object, under the declared output dims;
nothing is appended to the plan and no buffer is read or written (the call
does not touch byte memory at all). -/
def odla_Reshape (c : Comp) (input : Value) (outputDims : List Nat)
    (id : Option String) : Comp × Value :=
  CreateValue c input.mem outputDims id

/-- Data semantics of a queued dnnl reorder with a packed destination: entry
`n` of the destination buffer is the source-buffer element addressed by the
source descriptor's strides at the multi-index of `n` in the destination dims.
This is the denotation of the `Prim.reorder` entries queued by
`odla_Transpose`. -/
def reorderData {α : Type} (dflt : α) (src dst : MemDesc) (buf : List α) : List α :=
  (List.range (totalElements dst.dims)).map fun n =>
    buf.getD (dot (unflatten dst.dims n) src.strides) dflt

/-- Source: `getNCHWDims`, `odla_dnnl.cc` lines 440-445 (the rank-4 debug
assertion is modeled totally). -/
def getNCHWDims (s : List Nat) : List Nat :=
  [s.getD 0 0, s.getD 3 0, s.getD 1 0, s.getD 2 0]

/-- Source: `getOIHWDims`, `odla_dnnl.cc` lines 447-452. -/
def getOIHWDims (s : List Nat) : List Nat :=
  [s.getD 3 0, s.getD 2 0, s.getD 0 0, s.getD 1 0]

/-- Source: `getGOIHWDims`, `odla_dnnl.cc` lines 454-462. -/
def getGOIHWDims (s : List Nat) (groups : Nat) : List Nat :=
  [groups, s.getD 0 0 / groups, s.getD 1 0, s.getD 2 0, s.getD 3 0]

/-- `std::swap(dims[0], dims[1])`. -/
def swap01 (s : List Nat) : List Nat :=
  match s with
  | a :: b :: t => b :: a :: t
  | _ => s

/-- Opaque format decisions made by the dnnl convolution primitive descriptor
(the source comparisons `pd.weights_desc() != kernel_md_src`,
`pd.src_desc() != input_md_src`, `pd.dst_desc() != ret_md_exp`). -/
structure ConvOracle where
  weightsNeedReorder : Bool
  inputNeedsReorder : Bool
  dstNeedsReorder : Bool
deriving DecidableEq

/-- Source: `odla_Conv`, `odla_dnnl.cc` lines 490-599, debug-build model.
Shape canonicalization follows lines 505-520 (the rank-4 debug assertions of
the dims helpers are modeled totally); the dilation assertion (line 542)
aborts before any plan or registry mutation and before any allocation; on the
success path the weight repack is synchronous (no plan entry, lines 551-560),
the input repack (lines 562-575), the convolution (lines 577-582) and the
destination repack (lines 586-595) are queued per the oracle's format
decisions, the result value is registered, `InterpretIfNeeded` runs, and a
bias operand is piped through `odla_Add` (line 598).  The source's temporary
repointing of `input->mem` is restored before return (lines 583-585) and the
persistent update of `kernel->mem` is not tracked by the registry model. -/
def odla_Conv (oracle : ConvOracle) (c : Comp) (input : Value)
    (inputLayout : Layout) (group : Nat) (kernel : Value)
    (kernelLayout : Layout) (strides dilations padsFront padsBack : List Nat)
    (bias : Option Value) (outputDims : List Nat) (id : Option String) :
    OpResult (Comp × Value) :=
  let inputDims := if inputLayout = Layout.channels_last then getNCHWDims input.shape else input.shape
  let outDims2 := if inputLayout = Layout.channels_last then getNCHWDims outputDims else outputDims
  let kd0 := if kernelLayout = Layout.sio then getOIHWDims kernel.shape else kernel.shape
  let kd1 :=
    if 1 < group then
      getGOIHWDims
        (if kernelLayout = Layout.sio ∧ kd0.getD 0 0 * group = kd0.getD 1 0 then swap01 kd0 else kd0)
        group
    else kd0
  if dilations.getD 0 0 = 1 ∧ dilations.getD 1 0 = 1 then
    let dt := input.mem.desc.dataType
    let retMem : DnnlMemory :=
      { desc := { dims := outDims2, dataType := dt, strides := getStrides outDims2 },
        handle := c.nextBuf }
    let c0 := { c with nextBuf := c.nextBuf + 1 }
    let c1 := if oracle.weightsNeedReorder then { c0 with nextBuf := c0.nextBuf + 1 } else c0
    let c2 :=
      if oracle.inputNeedsReorder then
        { c1 with nextBuf := c1.nextBuf + 1,
                  primitives := c1.primitives ++ [Prim.reorderToPreferred],
                  args := c1.args ++ [[(ArgKind.src0, input.mem.handle), (ArgKind.dst, c1.nextBuf)]] }
      else c1
    let c3 := { c2 with primitives := c2.primitives ++ [Prim.convForward inputDims kd1 outDims2] }
    let p := CreateValue c3 retMem outputDims id
    let c4 := { p.1 with args := p.1.args ++
        [[(ArgKind.src0, input.mem.handle), (ArgKind.weights, kernel.mem.handle), (ArgKind.dst, retMem.handle)]] }
    let reordered : DnnlMemory :=
      { desc := { dims := outDims2, dataType := dt, strides := getStrides outDims2 },
        handle := c4.nextBuf }
    let c5 :=
      if oracle.dstNeedsReorder then
        { c4 with nextBuf := c4.nextBuf + 1,
                  primitives := c4.primitives ++ [Prim.reorderFromPreferred],
                  args := c4.args ++ [[(ArgKind.src0, retMem.handle), (ArgKind.dst, reordered.handle)]] }
      else c4
    let v := if oracle.dstNeedsReorder then { p.2 with mem := reordered } else p.2
    let c6 := InterpretIfNeeded c5
    match bias with
    | some b => odla_Add c6 v b id
    | none => OpResult.returns (c6, v)
  else OpResult.aborted c

/-- Source: `odla_DeConv`, `odla_dnnl.cc` lines 601-710, debug-build model,
mirroring `odla_Conv` with the deconvolution kernel-layout munging (lines
623-631): SIO becomes OIHW, IOS swaps the first two dims, and groups above 1
insert the leading groups dim.  The dilation assertion (line 653) aborts
before any plan or registry mutation. -/
def odla_DeConv (oracle : ConvOracle) (c : Comp) (input : Value)
    (inputLayout : Layout) (group : Nat) (kernel : Value)
    (kernelLayout : Layout) (strides dilations padsFront padsBack : List Nat)
    (bias : Option Value) (outputDims : List Nat) (id : Option String) :
    OpResult (Comp × Value) :=
  let inputDims := if inputLayout = Layout.channels_last then getNCHWDims input.shape else input.shape
  let outDims2 := if inputLayout = Layout.channels_last then getNCHWDims outputDims else outputDims
  let kd0 :=
    if kernelLayout = Layout.sio then getOIHWDims kernel.shape
    else if kernelLayout = Layout.ios then swap01 kernel.shape
    else kernel.shape
  let kd1 := if 1 < group then getGOIHWDims kd0 group else kd0
  if dilations.getD 0 0 = 1 ∧ dilations.getD 1 0 = 1 then
    let dt := input.mem.desc.dataType
    let retMem : DnnlMemory :=
      { desc := { dims := outDims2, dataType := dt, strides := getStrides outDims2 },
        handle := c.nextBuf }
    let c0 := { c with nextBuf := c.nextBuf + 1 }
    let c1 := if oracle.weightsNeedReorder then { c0 with nextBuf := c0.nextBuf + 1 } else c0
    let c2 :=
      if oracle.inputNeedsReorder then
        { c1 with nextBuf := c1.nextBuf + 1,
                  primitives := c1.primitives ++ [Prim.reorderToPreferred],
                  args := c1.args ++ [[(ArgKind.src0, input.mem.handle), (ArgKind.dst, c1.nextBuf)]] }
      else c1
    let c3 := { c2 with primitives := c2.primitives ++ [Prim.deconvForward inputDims kd1 outDims2] }
    let p := CreateValue c3 retMem outputDims id
    let c4 := { p.1 with args := p.1.args ++
        [[(ArgKind.src0, input.mem.handle), (ArgKind.weights, kernel.mem.handle), (ArgKind.dst, retMem.handle)]] }
    let reordered : DnnlMemory :=
      { desc := { dims := outDims2, dataType := dt, strides := getStrides outDims2 },
        handle := c4.nextBuf }
    let c5 :=
      if oracle.dstNeedsReorder then
        { c4 with nextBuf := c4.nextBuf + 1,
                  primitives := c4.primitives ++ [Prim.reorderFromPreferred],
                  args := c4.args ++ [[(ArgKind.src0, retMem.handle), (ArgKind.dst, reordered.handle)]] }
      else c4
    let v := if oracle.dstNeedsReorder then { p.2 with mem := reordered } else p.2
    let c6 := InterpretIfNeeded c5
    match bias with
    | some b => odla_Add c6 v b id
    | none => OpResult.returns (c6, v)
  else OpResult.aborted c

/-- Source: `odla_Gemm`, `odla_dnnl.cc` lines 965-1002: rank-2 debug
assertion, transpose-flag-dependent leading dimensions, one matmul plan
entry; note: no `InterpretIfNeeded` call; an optional bias is fused via
`odla_Add` (which does drain).  The unused alpha/beta scalars are omitted. -/
def odla_Gemm (c : Comp) (lhs : Value) (transposeLhs : Bool) (rhs : Value)
    (transposeRhs : Bool) (bias : Option Value) (outputDims : List Nat)
    (id : Option String) : OpResult (Comp × Value) :=
  if lhs.shape.length = 2 ∧ rhs.shape.length = 2 then
    let dt := lhs.mem.desc.dataType
    let m := outputDims.getD 0 0
    let n := outputDims.getD 1 0
    let k := if transposeRhs then rhs.shape.getD 1 0 else rhs.shape.getD 0 0
    let lda := if transposeLhs then m else k
    let ldb := if transposeRhs then k else n
    let ldc := n
    let lhsMd : MemDesc :=
      { dims := [m, k], dataType := dt, strides := if transposeLhs then [1, lda] else [lda, 1] }
    let rhsMd : MemDesc :=
      { dims := [k, n], dataType := dt, strides := if transposeRhs then [1, ldb] else [ldb, 1] }
    let retMd : MemDesc := { dims := [m, n], dataType := dt, strides := [ldc, 1] }
    let retMem : DnnlMemory := { desc := retMd, handle := c.nextBuf }
    let c0 := { c with nextBuf := c.nextBuf + 1 }
    let c1 := { c0 with primitives := c0.primitives ++ [Prim.matmul lhsMd rhsMd retMd] }
    let c2 := { c1 with args := c1.args ++
        [[(ArgKind.src0, lhs.mem.handle), (ArgKind.weights, rhs.mem.handle), (ArgKind.dst, retMem.handle)]] }
    let p := CreateValue c2 retMem outputDims (if bias.isSome then none else id)
    match bias with
    | some b => odla_Add p.1 p.2 b id
    | none => OpResult.returns (p.1, p.2)
  else OpResult.aborted c

/-- One `std::copy_n(src, pat.length, data.begin() + pos)` into a fixed-size
byte vector; the final `take` keeps the vector's length (all writes performed
by terminating executions of the source splat loop are in bounds). -/
def writeBytes (data : List Nat) (pos : Nat) (pat : List Nat) : List Nat :=
  (data.take pos ++ pat ++ data.drop (pos + pat.length)).take data.length

/-- Source: the splat loop of `Constant::Constant` (`constant.cc` lines
42-46): `for (i = 0, e = bytes / byte_per_element; i != e; i += byte_per_element)`
copies the pattern at byte offset `i`.  The loop variable advances in bytes
but is compared against an element count, so the loop is modeled with fuel:
`none` means it fails to terminate normally (in C++ it runs past the
buffer). -/
def splatLoop : Nat → Nat → Nat → Nat → List Nat → List Nat → Option (List Nat)
  | 0, _, _, _, _, _ => none
  | fuel + 1, i, e, bpe, src, data =>
    if i = e then some data
    else splatLoop fuel (i + bpe) e bpe src (writeBytes data i (src.take bpe))

/-- Source: `Constant::Constant`, `constant.cc` lines 28-48: resize the data
buffer to `bytes` zero bytes, then either copy `bytes` bytes verbatim
(`do_splat` false) or run the splat loop. -/
def constantDataInit (bytes bytePerElement : Nat) (src : List Nat)
    (doSplat : Bool) : Option (List Nat) :=
  let data := List.replicate bytes 0
  if doSplat then
    splatLoop (bytes / bytePerElement + 1) 0 (bytes / bytePerElement) bytePerElement src data
  else
    some (writeBytes data 0 (src.take bytes))

/-- Modelled from the spec's words (§6): value-splatting replicates the
`byte_per_element`-byte source pattern across the full `bytes`-byte buffer. -/
def specSplatData (bytes bytePerElement : Nat) (src : List Nat) : List Nat :=
  (List.replicate (bytes / bytePerElement) (src.take bytePerElement)).foldr (· ++ ·) []

/-- Fresh computation state used by the concrete witnesses and
counterexamples. -/
def sampleComp (build mode : Bool) (nb : Nat) : Comp :=
  { primitives := [], args := [], vals := [], inputs := [], outputs := [],
    enable_bf16 := false, nextBuf := nb, interpreterBuild := build,
    interpretMode := mode, executed := [] }

/-- Packed f32 value used by the concrete witnesses and counterexamples. -/
def mkVal (shape : List Nat) (h : Nat) (isConst : Bool) (nm : String) : Value :=
  { mem := { desc := { dims := shape, dataType := DataType.f32, strides := getStrides shape },
             handle := h },
    is_const := isConst, shape := shape, name := nm }

/-- Constant output value for the C1 witness: one f32 element backed by
buffer 0. -/
def c1Val : Value := mkVal [1] 0 true "out"

/-- Heap for the C1 witness: buffer 0 holds the constant's four bytes, buffer
5 is the caller's five-byte output buffer. -/
def c1Heap : Heap := fun b => if b = 0 then [1, 2, 3, 4] else if b = 5 then [9, 9, 9, 9, 9] else []

/-- Immediate-mode computation for the C2 material. -/
def c2Comp : Comp := sampleComp true true 5

/-- Two-element f32 value for the C2 material. -/
def c2Val : Value := mkVal [2] 0 false "x"

/-- The left-operand packed descriptor arising in the C2 witness. -/
def c2LhsMd : MemDesc := { dims := [2], dataType := DataType.f32, strides := [1] }

/-- The value `odla_Add` registers in the C2 witness run. -/
def c2ResVal : Value :=
  { mem := { desc := c2LhsMd, handle := 5 }, is_const := false, shape := [2], name := "s" }

/-- The computation state after the C2 witness run of `odla_Add`: plan and
args drained, the binary entry on the executed trace. -/
def c2ResComp : Comp :=
  { primitives := [], args := [], vals := [c2ResVal], inputs := [], outputs := [],
    enable_bf16 := false, nextBuf := 6, interpreterBuild := true, interpretMode := true,
    executed := [Prim.binary BinAlgo.add c2LhsMd c2LhsMd c2LhsMd] }

/-- 1x1x2x2 input for the conv conjunct of the C2 witness. -/
def c2cIn : Value := mkVal [1, 1, 2, 2] 0 false "i"

/-- 1x1x1x1 kernel for the conv conjunct of the C2 witness. -/
def c2cKer : Value := mkVal [1, 1, 1, 1] 1 false "k"

/-- The value registered by the conv run of the C2 witness. -/
def c2ConvResVal : Value :=
  { mem := { desc := { dims := [1, 1, 2, 2], dataType := DataType.f32, strides := [4, 4, 2, 1] },
             handle := 5 },
    is_const := false, shape := [1, 1, 2, 2], name := "c" }

/-- The computation state after the conv run of the C2 witness: plan and args
drained, the conv entry on the executed trace. -/
def c2ConvResComp : Comp :=
  { primitives := [], args := [], vals := [c2ConvResVal], inputs := [], outputs := [],
    enable_bf16 := false, nextBuf := 6, interpreterBuild := true, interpretMode := true,
    executed := [Prim.convForward [1, 1, 2, 2] [1, 1, 1, 1] [1, 1, 2, 2]] }

/-- Compiled-mode computation for the C4 material. -/
def c4Comp : Comp := sampleComp false false 100

/-- Rank-3 left operand (24 elements) for the C4 witness. -/
def c4Lhs : Value := mkVal [2, 3, 4] 0 false "l"

/-- Rank-1 right operand (4 elements) for the C4 material. -/
def c4Rhs : Value := mkVal [4] 1 false "r"

/-- Rank-2 left operand (6 elements) for the C4 counterexample: 4 does not
divide 6. -/
def c4LhsBad : Value := mkVal [2, 3] 0 false "lb"

/-- Left-operand packed descriptor in the C4 witness. -/
def c4LhsMd : MemDesc := { dims := [2, 3, 4], dataType := DataType.f32, strides := [12, 4, 1] }

/-- Broadcast view of the right operand in the C4 witness: zero strides on the
two leading unmatched dims. -/
def c4RhsMd : MemDesc := { dims := [2, 3, 4], dataType := DataType.f32, strides := [0, 0, 1] }

/-- The value registered by the C4 witness run. -/
def c4ResVal : Value :=
  { mem := { desc := c4LhsMd, handle := 100 }, is_const := false, shape := [2, 3, 4], name := "a" }

/-- The computation state after the C4 witness run. -/
def c4ResComp : Comp :=
  { primitives := [Prim.binary BinAlgo.add c4LhsMd c4RhsMd c4LhsMd],
    args := [[(ArgKind.src0, 0), (ArgKind.src1, 1), (ArgKind.dst, 100)]],
    vals := [c4ResVal], inputs := [], outputs := [],
    enable_bf16 := false, nextBuf := 101, interpreterBuild := false, interpretMode := false,
    executed := [] }

/-- Compiled-mode computation for the C5 material. -/
def c5Comp : Comp := sampleComp false false 0

/-- 1x1x4x4 input for the C5 material. -/
def c5In : Value := mkVal [1, 1, 4, 4] 0 false "i"

/-- 1x1x3x3 kernel for the C5 material. -/
def c5Ker : Value := mkVal [1, 1, 3, 3] 1 false "k"

/-- Oracle for the C5 material: no format divergence. -/
def c5Oracle : ConvOracle :=
  { weightsNeedReorder := false, inputNeedsReorder := false, dstNeedsReorder := false }

/-- Computation for the C6 witness. -/
def c6Comp : Comp := sampleComp false false 1

/-- 2x3 f32 value for the C6 witness. -/
def c6Val : Value := mkVal [2, 3] 0 false "x"

/-- Computation for the C7 witness. -/
def c7Comp : Comp := sampleComp false false 0

/-- 2x3 f32 value for the C7 witness. -/
def c7Val : Value := mkVal [2, 3] 0 false "x"

theorem totalElements_cons (d : Nat) (t : List Nat) :
    totalElements (d :: t) = d * totalElements t := rfl

theorem getStrides_length : ∀ (dims : List Nat), (getStrides dims).length = dims.length := by
  intro dims
  induction dims with
  | nil => rfl
  | cons d t ih => simp [getStrides, ih]

theorem unflatten_length : ∀ (dims : List Nat) (n : Nat),
    (unflatten dims n).length = dims.length := by
  intro dims
  induction dims with
  | nil => intro n; rfl
  | cons d t ih => intro n; simp [unflatten, ih]

theorem totalElements_tail_pos {d : Nat} {t : List Nat} {n : Nat}
    (hn : n < totalElements (d :: t)) : 0 < totalElements t := by
  rcases Nat.eq_zero_or_pos (totalElements t) with h | h
  · rw [totalElements_cons, h, Nat.mul_zero] at hn
    exact absurd hn (Nat.not_lt_zero n)
  · exact h

theorem dot_strides_unflatten : ∀ (dims : List Nat) (n : Nat),
    n < totalElements dims → dot (unflatten dims n) (getStrides dims) = n := by
  intro dims
  induction dims with
  | nil =>
    intro n hn
    have h0 : n = 0 := Nat.lt_one_iff.mp hn
    simp [unflatten, dot, h0]
  | cons d t ih =>
    intro n hn
    have hp : 0 < totalElements t := totalElements_tail_pos hn
    show n / totalElements t * totalElements t +
        dot (unflatten t (n % totalElements t)) (getStrides t) = n
    rw [ih (n % totalElements t) (Nat.mod_lt n hp)]
    rw [Nat.mul_comm (n / totalElements t) (totalElements t)]
    exact Nat.div_add_mod n (totalElements t)

theorem forall2_unflatten : ∀ (dims : List Nat) (n : Nat),
    n < totalElements dims → List.Forall₂ (· < ·) (unflatten dims n) dims := by
  intro dims
  induction dims with
  | nil => intro n _; exact List.Forall₂.nil
  | cons d t ih =>
    intro n hn
    have hp : 0 < totalElements t := totalElements_tail_pos hn
    rw [totalElements_cons] at hn
    refine List.Forall₂.cons ?_ (ih (n % totalElements t) (Nat.mod_lt n hp))
    exact (Nat.div_lt_iff_lt_mul hp).mpr hn

theorem dot_strides_lt : ∀ {j dims : List Nat}, List.Forall₂ (· < ·) j dims →
    dot j (getStrides dims) < totalElements dims := by
  intro j dims h
  induction h with
  | nil => exact Nat.zero_lt_one
  | @cons a b l₁ l₂ hab htail ih =>
    show a * totalElements l₂ + dot l₁ (getStrides l₂) < b * totalElements l₂
    calc a * totalElements l₂ + dot l₁ (getStrides l₂)
        < a * totalElements l₂ + totalElements l₂ := Nat.add_lt_add_left ih _
      _ = (a + 1) * totalElements l₂ := (Nat.succ_mul a (totalElements l₂)).symm
      _ ≤ b * totalElements l₂ := Nat.mul_le_mul_right _ (Nat.succ_le_of_lt hab)

theorem unflatten_dot : ∀ {j dims : List Nat}, List.Forall₂ (· < ·) j dims →
    unflatten dims (dot j (getStrides dims)) = j := by
  intro j dims h
  induction h with
  | nil => rfl
  | @cons a b l₁ l₂ hab htail ih =>
    have hx : dot l₁ (getStrides l₂) < totalElements l₂ := dot_strides_lt htail
    have hp : 0 < totalElements l₂ := Nat.lt_of_le_of_lt (Nat.zero_le _) hx
    show (a * totalElements l₂ + dot l₁ (getStrides l₂)) / totalElements l₂ ::
        unflatten l₂ ((a * totalElements l₂ + dot l₁ (getStrides l₂)) % totalElements l₂)
        = a :: l₁
    rw [Nat.mul_comm a (totalElements l₂), Nat.mul_add_div hp, Nat.div_eq_of_lt hx,
        Nat.add_zero, Nat.mul_add_mod, Nat.mod_eq_of_lt hx, ih]

theorem dot_map_map : ∀ (l : List Nat) (f g : Nat → Nat),
    dot (l.map f) (l.map g) = (l.map fun x => f x * g x).sum := by
  intro l f g
  induction l with
  | nil => rfl
  | cons a t ih =>
    show f a * g a + dot (t.map f) (t.map g) = ((a :: t).map fun x => f x * g x).sum
    rw [ih]
    simp [List.sum_cons]

theorem getD_map_lt : ∀ {β α : Type} (l : List β) (f : β → α) (i : Nat) (d : α) (db : β),
    i < l.length → (l.map f).getD i d = f (l.getD i db) := by
  intro β α l f
  induction l with
  | nil => intro i d db h; exact absurd h (Nat.not_lt_zero i)
  | cons a t ih =>
    intro i d db h
    cases i with
    | zero => rfl
    | succ i =>
      show (t.map f).getD i d = f (t.getD i db)
      exact ih i d db (Nat.lt_of_succ_lt_succ h)

theorem range_getD : ∀ (m i : Nat), i < m → (List.range m).getD i 0 = i := by
  intro m
  induction m with
  | zero => intro i h; exact absurd h (Nat.not_lt_zero i)
  | succ m ih =>
    intro i h
    rw [List.range_succ_eq_map]
    cases i with
    | zero => rfl
    | succ i =>
      rw [List.getD_cons_succ]
      rw [getD_map_lt (List.range m) Nat.succ i 0 0 (by rw [List.length_range]; omega)]
      rw [ih i (by omega)]

theorem range_map_getD : ∀ {α : Type} (l : List α) (d : α),
    (List.range l.length).map (fun i => l.getD i d) = l := by
  intro α l d
  induction l with
  | nil => rfl
  | cons a t ih =>
    show (List.range (t.length + 1)).map (fun i => (a :: t).getD i d) = a :: t
    rw [List.range_succ_eq_map, List.map_cons, List.map_map]
    have hfun : ((fun i => (a :: t).getD i d) ∘ Nat.succ) = fun i => t.getD i d := by
      funext i; rfl
    rw [hfun, ih]
    rfl

theorem getD_map_range : ∀ {α : Type} (F : Nat → α) (m i : Nat) (d : α), i < m →
    ((List.range m).map F).getD i d = F i := by
  intro α F m i d h
  rw [getD_map_lt (List.range m) F i d 0 (by rw [List.length_range]; exact h)]
  rw [range_getD m i h]

theorem getD_mem : ∀ (l : List Nat) (i : Nat), i < l.length → l.getD i 0 ∈ l := by
  intro l
  induction l with
  | nil => intro i h; exact absurd h (Nat.not_lt_zero i)
  | cons a t ih =>
    intro i h
    cases i with
    | zero => exact List.mem_cons_self a t
    | succ i =>
      rw [List.getD_cons_succ]
      exact List.mem_cons_of_mem a (ih i (Nat.lt_of_succ_lt_succ h))

theorem forall2_getD : ∀ {a b : List Nat}, List.Forall₂ (· < ·) a b →
    ∀ i, i < b.length → a.getD i 0 < b.getD i 0 := by
  intro a b h
  induction h with
  | nil => intro i h; exact absurd h (Nat.not_lt_zero i)
  | @cons x y l₁ l₂ hxy htail ih =>
    intro i hi
    cases i with
    | zero => exact hxy
    | succ i =>
      rw [List.getD_cons_succ, List.getD_cons_succ]
      exact ih i (Nat.lt_of_succ_lt_succ hi)

theorem forall2_of_getD : ∀ (a b : List Nat), a.length = b.length →
    (∀ i, i < b.length → a.getD i 0 < b.getD i 0) → List.Forall₂ (· < ·) a b := by
  intro a
  induction a with
  | nil =>
    intro b hl _
    cases b with
    | nil => exact List.Forall₂.nil
    | cons y u => exact absurd hl (by simp)
  | cons x t ih =>
    intro b hl h
    cases b with
    | nil => exact absurd hl (by simp)
    | cons y u =>
      refine List.Forall₂.cons (h 0 (by simp)) (ih u (by simpa using hl) ?_)
      intro i hi
      have := h (i + 1) (by simpa using Nat.succ_lt_succ hi)
      rwa [List.getD_cons_succ, List.getD_cons_succ] at this

theorem dot_eq_range_sum : ∀ (k s : List Nat), k.length = s.length →
    dot k s = ((List.range k.length).map fun i => k.getD i 0 * s.getD i 0).sum := by
  intro k
  induction k with
  | nil => intro s _; rfl
  | cons a t ih =>
    intro s h
    cases s with
    | nil => exact absurd h (by simp)
    | cons b u =>
      show a * b + dot t u =
          ((List.range (t.length + 1)).map fun i => (a :: t).getD i 0 * (b :: u).getD i 0).sum
      rw [List.range_succ_eq_map, List.map_cons, List.map_map]
      have hfun : ((fun i => (a :: t).getD i 0 * (b :: u).getD i 0) ∘ Nat.succ)
          = fun i => t.getD i 0 * u.getD i 0 := by
        funext i; rfl
      rw [hfun, List.sum_cons, ih u (by simpa using h)]
      rfl

theorem perm_range_sum (P : List Nat) (r : Nat) (h : List.Perm P (List.range r))
    (f : Nat → Nat) : (P.map f).sum = ((List.range r).map f).sum :=
  (h.map f).sum_eq

theorem perm_range_entry_lt (P : List Nat) (r : Nat) (h : List.Perm P (List.range r))
    (i : Nat) (hi : i < P.length) : P.getD i 0 < r :=
  List.mem_range.mp (h.mem_iff.mp (getD_mem P i hi))

theorem overwriteFront_full (base repl : List Nat) (h : repl.length = base.length) :
    overwriteFront base repl = repl := by
  unfold overwriteFront
  rw [h, List.drop_length, List.append_nil, ← h, List.take_length]

theorem transpose_core {α : Type} (dflt : α) (inDims P Q outDims : List Nat) (buf : List α)
    (hP : List.Perm P (List.range inDims.length))
    (hQ : List.Perm Q (List.range inDims.length))
    (hPQ : ∀ i, i < inDims.length → P.getD (Q.getD i 0) 0 = i)
    (hout : outDims = P.map fun p => inDims.getD p 0)
    (hbuf : buf.length = totalElements inDims) :
    (List.range (totalElements inDims)).map (fun n =>
      ((List.range (totalElements outDims)).map (fun m =>
        buf.getD (dot (unflatten outDims m) (P.map fun p => (getStrides inDims).getD p 0)) dflt)).getD
        (dot (unflatten inDims n) (Q.map fun q => (getStrides outDims).getD q 0)) dflt) = buf := by
  have hPlen : P.length = inDims.length := by
    have h := hP.length_eq
    rwa [List.length_range] at h
  have hQlen : Q.length = inDims.length := by
    have h := hQ.length_eq
    rwa [List.length_range] at h
  have houtlen : outDims.length = inDims.length := by
    rw [hout, List.length_map, hPlen]
  have key : ∀ n ∈ List.range (totalElements inDims),
      ((List.range (totalElements outDims)).map (fun m =>
        buf.getD (dot (unflatten outDims m) (P.map fun p => (getStrides inDims).getD p 0)) dflt)).getD
        (dot (unflatten inDims n) (Q.map fun q => (getStrides outDims).getD q 0)) dflt
      = buf.getD n dflt := by
    intro n hn
    have hnlt : n < totalElements inDims := List.mem_range.mp hn
    have hkd : List.Forall₂ (· < ·) (unflatten inDims n) inDims := forall2_unflatten inDims n hnlt
    have hklen : (unflatten inDims n).length = inDims.length := unflatten_length inDims n
    set k := unflatten inDims n with hkdef
    set j := P.map (fun p => k.getD p 0) with hjdef
    have hjlen : j.length = inDims.length := by rw [hjdef, List.length_map, hPlen]
    have hjd : List.Forall₂ (· < ·) j outDims := by
      refine forall2_of_getD j outDims (by rw [hjlen, houtlen]) ?_
      intro i hi
      have hiP : i < P.length := by rw [hPlen, ← houtlen]; exact hi
      have hPi : P.getD i 0 < inDims.length := perm_range_entry_lt P _ hP i hiP
      have h1 : j.getD i 0 = k.getD (P.getD i 0) 0 := by
        rw [hjdef]; exact getD_map_lt P _ i 0 0 hiP
      have h2 : outDims.getD i 0 = inDims.getD (P.getD i 0) 0 := by
        rw [hout]; exact getD_map_lt P _ i 0 0 hiP
      rw [h1, h2]
      exact forall2_getD hkd (P.getD i 0) hPi
    have hoff : dot k (Q.map fun q => (getStrides outDims).getD q 0)
        = dot j (getStrides outDims) := by
      have hlen1 : k.length = (Q.map fun q => (getStrides outDims).getD q 0).length := by
        rw [hklen, List.length_map, hQlen]
      rw [dot_eq_range_sum _ _ hlen1, hklen]
      have hterm : ∀ i ∈ List.range inDims.length,
          k.getD i 0 * (Q.map fun q => (getStrides outDims).getD q 0).getD i 0
          = (fun a => j.getD a 0 * (getStrides outDims).getD a 0) (Q.getD i 0) := by
        intro i hi
        have hiI : i < inDims.length := List.mem_range.mp hi
        have hiQ : i < Q.length := by rw [hQlen]; exact hiI
        have hQi : Q.getD i 0 < inDims.length := perm_range_entry_lt Q _ hQ i hiQ
        have hQiP : Q.getD i 0 < P.length := by rw [hPlen]; exact hQi
        have hg : (Q.map fun q => (getStrides outDims).getD q 0).getD i 0
            = (getStrides outDims).getD (Q.getD i 0) 0 := getD_map_lt Q _ i 0 0 hiQ
        have hjq : j.getD (Q.getD i 0) 0 = k.getD (P.getD (Q.getD i 0) 0) 0 := by
          rw [hjdef]; exact getD_map_lt P _ (Q.getD i 0) 0 0 hQiP
        rw [hg]
        show k.getD i 0 * (getStrides outDims).getD (Q.getD i 0) 0
            = j.getD (Q.getD i 0) 0 * (getStrides outDims).getD (Q.getD i 0) 0
        rw [hjq, hPQ i hiI]
      rw [List.map_congr_left hterm]
      have hcomp : (List.range inDims.length).map
            (fun i => (fun a => j.getD a 0 * (getStrides outDims).getD a 0) (Q.getD i 0))
          = Q.map fun a => j.getD a 0 * (getStrides outDims).getD a 0 := by
        conv_rhs => rw [← range_map_getD Q 0]
        rw [List.map_map, hQlen]
        rfl
      rw [hcomp, perm_range_sum Q _ hQ]
      have hlen2 : j.length = (getStrides outDims).length := by
        rw [hjlen, getStrides_length, houtlen]
      have hd := dot_eq_range_sum j (getStrides outDims) hlen2
      rw [hjlen] at hd
      rw [← hd]
    have hjlt : dot j (getStrides outDims) < totalElements outDims := dot_strides_lt hjd
    have hunf : unflatten outDims (dot j (getStrides outDims)) = j := unflatten_dot hjd
    rw [hoff, getD_map_range _ _ _ dflt hjlt, hunf]
    have hfin : dot j (P.map fun p => (getStrides inDims).getD p 0) = n := by
      rw [hjdef, dot_map_map, perm_range_sum P _ hP]
      have hlen3 : k.length = (getStrides inDims).length := by
        rw [hklen, getStrides_length]
      have hd := dot_eq_range_sum k (getStrides inDims) hlen3
      rw [hklen] at hd
      rw [← hd]
      exact dot_strides_unflatten inDims n hnlt
    rw [hfin]
  rw [List.map_congr_left key, ← hbuf]
  exact range_map_getD buf dflt

theorem binaryFinish_drained (algo : BinAlgo) (c : Comp) (lhs rhs : Value)
    (lhsMd rhsMd : MemDesc) (retMem : DnnlMemory) (id : Option String) (c2 : Comp) (v : Value)
    (heq : binaryFinish algo c lhs rhs lhsMd rhsMd retMem id = OpResult.returns (c2, v))
    (hb : c.interpreterBuild = true) (hm : c.interpretMode = true) :
    c2.primitives = [] ∧ c2.args = [] ∧
    ∃ p, c2.executed = c.executed ++ c.primitives ++ [p] := by
  simp [binaryFinish, CreateValue, InterpretIfNeeded, hb, hm] at heq
  obtain ⟨h1, h2⟩ := heq
  subst h1
  refine ⟨rfl, rfl, ⟨Prim.binary algo lhsMd rhsMd lhsMd, ?_⟩⟩
  exact (List.append_assoc _ _ _).symm

theorem binary_drained (algo : BinAlgo) (c : Comp) (lhs rhs : Value) (id : Option String)
    (hb : c.interpreterBuild = true) (hm : c.interpretMode = true) :
    ∀ c2 v, binary_eltwise algo c lhs rhs id = OpResult.returns (c2, v) →
      c2.primitives = [] ∧ c2.args = [] ∧
      ∃ p, c2.executed = c.executed ++ c.primitives ++ [p] := by
  intro c2 v heq
  simp only [binary_eltwise] at heq
  split at heq
  · split at heq
    · exact binaryFinish_drained _ { c with nextBuf := c.nextBuf + 1 } _ _ _ _ _ _ _ _ heq hb hm
    · exact OpResult.noConfusion heq
  · split at heq
    · exact binaryFinish_drained _ { c with nextBuf := c.nextBuf + 1 } _ _ _ _ _ _ _ _ heq hb hm
    · exact binaryFinish_drained _ { c with nextBuf := c.nextBuf + 1 } _ _ _ _ _ _ _ _ heq hb hm

theorem conv_drained (oracle : ConvOracle) (c : Comp) (input : Value) (il : Layout)
    (group : Nat) (kernel : Value) (kl : Layout) (strides dilations pf pb : List Nat)
    (bias : Option Value) (outputDims : List Nat) (id : Option String)
    (hb : c.interpreterBuild = true) (hm : c.interpretMode = true) :
    ∀ c2 v, odla_Conv oracle c input il group kernel kl strides dilations pf pb bias
        outputDims id = OpResult.returns (c2, v) →
      c2.primitives = [] ∧ c2.args = [] := by
  intro c2 v heq
  obtain ⟨w, ir, dr⟩ := oracle
  cases bias with
  | none =>
    cases w <;> cases ir <;> cases dr
    all_goals simp [odla_Conv, CreateValue, InterpretIfNeeded, hb, hm] at heq
    all_goals split at heq
    all_goals first
      | exact OpResult.noConfusion heq
      | (simp only [OpResult.returns.injEq, Prod.mk.injEq] at heq
         obtain ⟨h1, h2⟩ := heq
         subst h1
         exact ⟨rfl, rfl⟩)
  | some b =>
    cases w <;> cases ir <;> cases dr
    all_goals simp [odla_Conv, CreateValue, InterpretIfNeeded, hb, hm] at heq
    all_goals split at heq
    all_goals first
      | exact OpResult.noConfusion heq
      | (obtain ⟨h1, h2, -⟩ := binary_drained _ _ _ _ _
           (by simp [InterpretIfNeeded, hb, hm]) (by simp [InterpretIfNeeded, hb, hm]) c2 v heq
         exact ⟨h1, h2⟩)

theorem deconv_drained (oracle : ConvOracle) (c : Comp) (input : Value) (il : Layout)
    (group : Nat) (kernel : Value) (kl : Layout) (strides dilations pf pb : List Nat)
    (bias : Option Value) (outputDims : List Nat) (id : Option String)
    (hb : c.interpreterBuild = true) (hm : c.interpretMode = true) :
    ∀ c2 v, odla_DeConv oracle c input il group kernel kl strides dilations pf pb bias
        outputDims id = OpResult.returns (c2, v) →
      c2.primitives = [] ∧ c2.args = [] := by
  intro c2 v heq
  obtain ⟨w, ir, dr⟩ := oracle
  cases bias with
  | none =>
    cases w <;> cases ir <;> cases dr
    all_goals simp [odla_DeConv, CreateValue, InterpretIfNeeded, hb, hm] at heq
    all_goals split at heq
    all_goals first
      | exact OpResult.noConfusion heq
      | (simp only [OpResult.returns.injEq, Prod.mk.injEq] at heq
         obtain ⟨h1, h2⟩ := heq
         subst h1
         exact ⟨rfl, rfl⟩)
  | some b =>
    cases w <;> cases ir <;> cases dr
    all_goals simp [odla_DeConv, CreateValue, InterpretIfNeeded, hb, hm] at heq
    all_goals split at heq
    all_goals first
      | exact OpResult.noConfusion heq
      | (obtain ⟨h1, h2, -⟩ := binary_drained _ _ _ _ _
           (by simp [InterpretIfNeeded, hb, hm]) (by simp [InterpretIfNeeded, hb, hm]) c2 v heq
         exact ⟨h1, h2⟩)

/-- Claim C1: for every output Value and caller buffer, `odla_BindToOutput`
copies the constant value's bytes into the caller's buffer leaving the value's
own handle unchanged when the value is constant, repoints the value's handle
to the caller's buffer without copying when it is not, and returns the success
status in both cases. -/
theorem claim_c1_bindToOutput (value : Value) (dataPtr : Nat) (heap : Heap) :
    (odla_BindToOutput value dataPtr heap).1 = Status.success ∧
    (value.is_const = true →
      (odla_BindToOutput value dataPtr heap).2.1 = value ∧
      (odla_BindToOutput value dataPtr heap).2.2 dataPtr =
        memcpyBytes (heap dataPtr) (heap value.mem.handle) (descSize value.mem) ∧
      ∀ b, b ≠ dataPtr → (odla_BindToOutput value dataPtr heap).2.2 b = heap b) ∧
    (value.is_const = false →
      (odla_BindToOutput value dataPtr heap).2.1.mem.handle = dataPtr ∧
      (odla_BindToOutput value dataPtr heap).2.1.is_const = value.is_const ∧
      (odla_BindToOutput value dataPtr heap).2.1.shape = value.shape ∧
      (odla_BindToOutput value dataPtr heap).2.2 = heap) := by
  cases hc : value.is_const with
  | true =>
    refine ⟨by simp [odla_BindToOutput, hc], fun _ => ⟨?_, ?_, ?_⟩, fun hfalse => ?_⟩
    · simp [odla_BindToOutput, hc]
    · simp [odla_BindToOutput, hc]
    · intro b hb
      simp [odla_BindToOutput, hc, hb]
    · exact Bool.noConfusion hfalse
  | false =>
    refine ⟨by simp [odla_BindToOutput, hc], fun htrue => ?_, fun _ => ⟨?_, ?_, ?_, ?_⟩⟩
    · exact Bool.noConfusion htrue
    · simp [odla_BindToOutput, hc]
    · simp [odla_BindToOutput, hc]
    · simp [odla_BindToOutput, hc]
    · simp [odla_BindToOutput, hc]

/-- Witness for C1 at a concrete constant output value and heap. -/
theorem claim_c1_witness :
    (odla_BindToOutput c1Val 5 c1Heap).1 = Status.success ∧
    (odla_BindToOutput c1Val 5 c1Heap).2.1 = c1Val ∧
    (odla_BindToOutput c1Val 5 c1Heap).2.2 5 = [1, 2, 3, 4, 9] := by
  have h := claim_c1_bindToOutput c1Val 5 c1Heap
  have hc := h.2.1 rfl
  refine ⟨h.1, hc.1, ?_⟩
  rw [hc.2.1]
  rfl

/-- Claim C2 is refuted as stated: in immediate mode, `odla_Transpose` appends
its reorder entry and returns without draining the plan, so the plan is not
empty after every op-lowering call. -/
theorem claim_c2_counterexample :
    (odla_Transpose c2Comp c2Val [0] [2] (some "t")).1.primitives ≠ [] := by decide

/-- Claim C2 (amended): in immediate mode, the drain-invoking op-lowering
calls — add, multiply, convolution and deconvolution — leave the plan and the
per-entry bindings empty on return (for add and multiply the previously
accumulated plan plus the new entry is additionally shown to move to the
executed trace); `odla_Transpose` and bias-free `odla_Gemm` never invoke the
drain and leave their newly appended entry pending in the plan. -/
theorem claim_c2_amended (c : Comp) (lhs rhs input : Value) (P outDims gemmOut : List Nat)
    (id tid gid : Option String) (oracle : ConvOracle) (cin kernel : Value)
    (il kl : Layout) (group : Nat) (cstr dil pf pb convOut : List Nat)
    (bias : Option Value) (cvid : Option String)
    (hb : c.interpreterBuild = true) (hm : c.interpretMode = true) :
    (∀ c2 v, odla_Add c lhs rhs id = OpResult.returns (c2, v) →
        c2.primitives = [] ∧ c2.args = [] ∧
        ∃ p, c2.executed = c.executed ++ c.primitives ++ [p]) ∧
    (∀ c2 v, odla_Mul c lhs rhs id = OpResult.returns (c2, v) →
        c2.primitives = [] ∧ c2.args = [] ∧
        ∃ p, c2.executed = c.executed ++ c.primitives ++ [p]) ∧
    (∀ c2 v, odla_Conv oracle c cin il group kernel kl cstr dil pf pb bias convOut cvid
        = OpResult.returns (c2, v) → c2.primitives = [] ∧ c2.args = []) ∧
    (∀ c2 v, odla_DeConv oracle c cin il group kernel kl cstr dil pf pb bias convOut cvid
        = OpResult.returns (c2, v) → c2.primitives = [] ∧ c2.args = []) ∧
    ((odla_Transpose c input P outDims tid).1.primitives =
        c.primitives ++ [Prim.reorder
          (transposeSrcMd input.shape input.mem.desc.dataType P outDims)
          (transposeDstMd input.mem.desc.dataType outDims)]) ∧
    (∀ c2 v, odla_Gemm c lhs false rhs false none gemmOut gid = OpResult.returns (c2, v) →
        ∃ p, c2.primitives = c.primitives ++ [p]) := by
  refine ⟨binary_drained BinAlgo.add c lhs rhs id hb hm,
          binary_drained BinAlgo.mul c lhs rhs id hb hm,
          conv_drained oracle c cin il group kernel kl cstr dil pf pb bias convOut cvid hb hm,
          deconv_drained oracle c cin il group kernel kl cstr dil pf pb bias convOut cvid hb hm,
          rfl, ?_⟩
  intro c2 v heq
  simp only [odla_Gemm] at heq
  split at heq
  · simp [CreateValue] at heq
    obtain ⟨h1, h2⟩ := heq
    subst h1
    exact ⟨_, rfl⟩
  · exact OpResult.noConfusion heq

/-- Witness for C2 (amended) at a concrete immediate-mode computation: a
drained add, a drained convolution, and the pending transpose entry. -/
theorem claim_c2_witness :
    odla_Add c2Comp c2Val c2Val (some "s") = OpResult.returns (c2ResComp, c2ResVal) ∧
    c2ResComp.primitives = [] ∧ c2ResComp.args = [] ∧
    odla_Conv c5Oracle c2Comp c2cIn Layout.channels_first 1 c2cKer Layout.ois
      [1, 1] [1, 1] [0, 0] [0, 0] none [1, 1, 2, 2] (some "c")
      = OpResult.returns (c2ConvResComp, c2ConvResVal) ∧
    c2ConvResComp.primitives = [] ∧ c2ConvResComp.args = [] ∧
    (odla_Transpose c2Comp c2Val [0] [2] (some "t")).1.primitives =
      c2Comp.primitives ++ [Prim.reorder
        (transposeSrcMd c2Val.shape c2Val.mem.desc.dataType [0] [2])
        (transposeDstMd c2Val.mem.desc.dataType [2])] := by
  have h := claim_c2_amended c2Comp c2Val c2Val c2Val [0] [2] [2, 2]
    (some "s") (some "t") (some "g") c5Oracle c2cIn c2cKer
    Layout.channels_first Layout.ois 1 [1, 1] [1, 1] [0, 0] [0, 0] [1, 1, 2, 2]
    none (some "c") rfl rfl
  have hlit : odla_Add c2Comp c2Val c2Val (some "s")
      = OpResult.returns (c2ResComp, c2ResVal) := by decide
  have hlitc : odla_Conv c5Oracle c2Comp c2cIn Layout.channels_first 1 c2cKer Layout.ois
      [1, 1] [1, 1] [0, 0] [0, 0] none [1, 1, 2, 2] (some "c")
      = OpResult.returns (c2ConvResComp, c2ConvResVal) := by decide
  have hc := h.1 c2ResComp c2ResVal hlit
  have hcc := h.2.2.1 c2ConvResComp c2ConvResVal hlitc
  exact ⟨hlit, hc.1, hc.2.1, hlitc, hcc.1, hcc.2, h.2.2.2.2.1⟩

/-- Claim C3: refuted code-side — `odla_SetValueAsOutput` and
`odla_GetValueData` are declared to return a status but their bodies end
without a return statement, so no (success) status is produced on those
paths. -/
theorem claim_c3_missing_return (c : Comp) (val value : Value) (dataPtr : Nat) (heap : Heap) :
    (odla_SetValueAsOutput c val).2 = none ∧
    odla_GetValueData true value dataPtr heap = AssertOr.returns (none,
      fun b => if b = dataPtr
               then memcpyBytes (heap dataPtr) (heap value.mem.handle) (descSize value.mem)
               else heap b) :=
  ⟨rfl, rfl⟩

/-- Claim C4 is refuted as stated: with mismatched ranks and a right operand
whose element count does not divide the left operand's, `binary_eltwise` fails
a debug assertion and aborts — it does not signal an error outcome (the call
has no status channel at all, and the check vanishes in NDEBUG builds). -/
theorem claim_c4_counterexample :
    binary_eltwise BinAlgo.add c4Comp c4LhsBad c4Rhs (some "a")
      = OpResult.aborted { c4Comp with nextBuf := c4Comp.nextBuf + 1 } := by decide

/-- Claim C4 (amended): with mismatched ranks, if the right operand's element
count does not divide the left operand's (or exceeds it) the call fails a
debug assertion and aborts with nothing appended to the plan (no error status
is returned; NDEBUG builds skip the check); when it divides and the right rank
is smaller, the queued binary primitive views the right operand with zero
stride on each leading unmatched left-hand dimension followed by the right
operand's row-major strides. -/
theorem claim_c4_amended (algo : BinAlgo) (c : Comp) (lhs rhs : Value) (id : Option String)
    (hrank : lhs.shape.length ≠ rhs.shape.length)
    (hrn : 0 < totalElements rhs.shape) :
    (¬ (totalElements rhs.shape ≤ totalElements lhs.shape ∧
        totalElements lhs.shape % totalElements rhs.shape = 0) →
      binary_eltwise algo c lhs rhs id = OpResult.aborted { c with nextBuf := c.nextBuf + 1 }) ∧
    (rhs.shape.length < lhs.shape.length → c.interpreterBuild = false →
      ∀ c2 v, binary_eltwise algo c lhs rhs id = OpResult.returns (c2, v) →
        c2.primitives = c.primitives ++ [Prim.binary algo
          { dims := lhs.shape, dataType := lhs.mem.desc.dataType, strides := getStrides lhs.shape }
          { dims := lhs.shape, dataType := lhs.mem.desc.dataType,
            strides := List.replicate (lhs.shape.length - rhs.shape.length) 0 ++
              getStrides rhs.shape }
          { dims := lhs.shape, dataType := lhs.mem.desc.dataType,
            strides := getStrides lhs.shape }]) := by
  constructor
  · intro hdiv
    simp only [binary_eltwise]
    rw [if_pos hrank, if_neg hdiv]
  · intro hlt hcb c2 v heq
    simp only [binary_eltwise] at heq
    rw [if_pos hrank] at heq
    by_cases hdiv : totalElements rhs.shape ≤ totalElements lhs.shape ∧
        totalElements lhs.shape % totalElements rhs.shape = 0
    · rw [if_pos hdiv] at heq
      have hlen : (List.replicate (lhs.shape.length - rhs.shape.length) 0 ++
          getStrides rhs.shape).length = (getStrides lhs.shape).length := by
        rw [List.length_append, List.length_replicate, getStrides_length, getStrides_length]
        omega
      rw [overwriteFront_full _ _ hlen] at heq
      simp [binaryFinish, CreateValue, InterpretIfNeeded, hcb] at heq
      obtain ⟨h1, h2⟩ := heq
      subst h1
      rfl
    · rw [if_neg hdiv] at heq
      exact OpResult.noConfusion heq

/-- Witness for C4 (amended): a [2,3,4] by [4] broadcast add yields the
zero-stride view [0,0,1]. -/
theorem claim_c4_witness :
    binary_eltwise BinAlgo.add c4Comp c4Lhs c4Rhs (some "a")
      = OpResult.returns (c4ResComp, c4ResVal) ∧
    c4ResComp.primitives = c4Comp.primitives ++
      [Prim.binary BinAlgo.add c4LhsMd c4RhsMd c4LhsMd] := by
  have hlit : binary_eltwise BinAlgo.add c4Comp c4Lhs c4Rhs (some "a")
      = OpResult.returns (c4ResComp, c4ResVal) := by decide
  have h := (claim_c4_amended BinAlgo.add c4Comp c4Lhs c4Rhs (some "a")
      (by decide) (by decide)).2 (by decide) rfl c4ResComp c4ResVal hlit
  exact ⟨hlit, h⟩

/-- Claim C5 is refuted as stated: a convolution with dilation 2 fails a debug
assertion and aborts — it is not rejected with an unsupported-configuration
error outcome (the call returns a value handle, not a status, and the check
vanishes in NDEBUG builds). -/
theorem claim_c5_counterexample :
    odla_Conv c5Oracle c5Comp c5In Layout.channels_first 1 c5Ker Layout.ois
      [1, 1] [2, 2] [0, 0] [0, 0] none [1, 1, 2, 2] (some "c")
      = OpResult.aborted c5Comp := by decide

/-- Claim C5 (amended): every convolution or deconvolution call with a
dilation value other than 1 fails the debug assertion and aborts before any
plan, registry or allocation mutation — the computation state at the abort is
exactly the state the call began with (no error status is produced; NDEBUG
builds skip the check and silently ignore the dilation). -/
theorem claim_c5_amended (oracle : ConvOracle) (c : Comp) (input : Value)
    (inputLayout : Layout) (group : Nat) (kernel : Value) (kernelLayout : Layout)
    (strides dilations padsFront padsBack : List Nat) (bias : Option Value)
    (outputDims : List Nat) (id : Option String)
    (hdil : ¬ (dilations.getD 0 0 = 1 ∧ dilations.getD 1 0 = 1)) :
    odla_Conv oracle c input inputLayout group kernel kernelLayout strides dilations
      padsFront padsBack bias outputDims id = OpResult.aborted c ∧
    odla_DeConv oracle c input inputLayout group kernel kernelLayout strides dilations
      padsFront padsBack bias outputDims id = OpResult.aborted c := by
  constructor
  · simp only [odla_Conv]
    rw [if_neg hdil]
  · simp only [odla_DeConv]
    rw [if_neg hdil]

/-- Witness for C5 (amended) at a concrete conv/deconv call with dilation 3. -/
theorem claim_c5_witness :
    odla_Conv c5Oracle c5Comp c5In Layout.channels_first 1 c5Ker Layout.ois
      [1, 1] [3, 1] [0, 0] [0, 0] none [1, 1, 2, 2] (some "c")
      = OpResult.aborted c5Comp ∧
    odla_DeConv c5Oracle c5Comp c5In Layout.channels_first 1 c5Ker Layout.ois
      [1, 1] [3, 1] [0, 0] [0, 0] none [1, 1, 2, 2] (some "c")
      = OpResult.aborted c5Comp :=
  claim_c5_amended c5Oracle c5Comp c5In Layout.channels_first 1 c5Ker Layout.ois
    [1, 1] [3, 1] [0, 0] [0, 0] none [1, 1, 2, 2] (some "c") (by decide)

/-- Claim C6: transposing by a permutation and then by its inverse (with the
correspondingly permuted declared output shapes) reproduces the original
buffer byte for byte, where each step is the denotation of the reorder entry
queued by `odla_Transpose` and the second step reads the value produced by
the first call. -/
theorem claim_c6_transpose_roundtrip {α : Type} (dflt : α) (c : Comp) (input : Value)
    (P Q outDims : List Nat) (buf : List α) (id1 : Option String)
    (hP : List.Perm P (List.range input.shape.length))
    (hQ : List.Perm Q (List.range input.shape.length))
    (hPQ : ∀ i, i < input.shape.length → P.getD (Q.getD i 0) 0 = i)
    (hQP : ∀ i, i < input.shape.length → Q.getD (P.getD i 0) 0 = i)
    (hout : outDims = P.map fun p => input.shape.getD p 0)
    (hbuf : buf.length = totalElements input.shape) :
    reorderData dflt
      (transposeSrcMd ((odla_Transpose c input P outDims id1).2).shape
        ((odla_Transpose c input P outDims id1).2).mem.desc.dataType Q input.shape)
      (transposeDstMd ((odla_Transpose c input P outDims id1).2).mem.desc.dataType input.shape)
      (reorderData dflt
        (transposeSrcMd input.shape input.mem.desc.dataType P outDims)
        (transposeDstMd input.mem.desc.dataType outDims) buf)
    = buf := by
  have hPlen : P.length = input.shape.length := by
    have h := hP.length_eq
    rwa [List.length_range] at h
  have hQlen : Q.length = input.shape.length := by
    have h := hQ.length_eq
    rwa [List.length_range] at h
  have houtlen : outDims.length = input.shape.length := by
    rw [hout, List.length_map, hPlen]
  have hshape : ((odla_Transpose c input P outDims id1).2).shape = outDims := rfl
  rw [hshape]
  simp only [reorderData, transposeSrcMd, transposeDstMd]
  rw [overwriteFront_full (getStrides input.shape)
      (P.map fun p => (getStrides input.shape).getD p 0)
      (by rw [List.length_map, getStrides_length]; exact hPlen)]
  rw [overwriteFront_full (getStrides outDims)
      (Q.map fun q => (getStrides outDims).getD q 0)
      (by rw [List.length_map, getStrides_length, hQlen, houtlen])]
  exact transpose_core dflt input.shape P Q outDims buf hP hQ hPQ hout hbuf

/-- Witness for C6: a 2x3 buffer transposed by [1,0] and back. -/
theorem claim_c6_witness :
    reorderData 0
      (transposeSrcMd ((odla_Transpose c6Comp c6Val [1, 0] [3, 2] (some "t")).2).shape
        ((odla_Transpose c6Comp c6Val [1, 0] [3, 2] (some "t")).2).mem.desc.dataType
        [1, 0] c6Val.shape)
      (transposeDstMd ((odla_Transpose c6Comp c6Val [1, 0] [3, 2] (some "t")).2).mem.desc.dataType
        c6Val.shape)
      (reorderData 0
        (transposeSrcMd c6Val.shape c6Val.mem.desc.dataType [1, 0] [3, 2])
        (transposeDstMd c6Val.mem.desc.dataType [3, 2]) [10, 20, 30, 40, 50, 60])
    = [10, 20, 30, 40, 50, 60] :=
  claim_c6_transpose_roundtrip 0 c6Comp c6Val [1, 0] [1, 0] [3, 2]
    [10, 20, 30, 40, 50, 60] (some "t") (by decide) (by decide) (by decide) (by decide)
    (by decide) (by decide)

/-- Claim C7: for any output shape with the input's element count,
`odla_Reshape` registers a new Value aliasing the input's memory under the new
shape, appends no plan entry, and touches no buffer (its type does not even
mention byte memory). -/
theorem claim_c7_reshape (c : Comp) (input : Value) (outputDims : List Nat)
    (id : Option String)
    (hcount : totalElements outputDims = totalElements input.shape) :
    ((odla_Reshape c input outputDims id).2).mem = input.mem ∧
    ((odla_Reshape c input outputDims id).2).shape = outputDims ∧
    (odla_Reshape c input outputDims id).1.primitives = c.primitives ∧
    (odla_Reshape c input outputDims id).1.args = c.args ∧
    (odla_Reshape c input outputDims id).1.executed = c.executed ∧
    (odla_Reshape c input outputDims id).1.vals =
      c.vals ++ [(odla_Reshape c input outputDims id).2] :=
  ⟨rfl, rfl, rfl, rfl, rfl, rfl⟩

/-- Witness for C7 at a concrete 2x3 to 3x2 reshape. -/
theorem claim_c7_witness :
    ((odla_Reshape c7Comp c7Val [3, 2] (some "r")).2).mem = c7Val.mem ∧
    (odla_Reshape c7Comp c7Val [3, 2] (some "r")).1.primitives = c7Comp.primitives := by
  have h := claim_c7_reshape c7Comp c7Val [3, 2] (some "r") (by decide)
  exact ⟨h.1, h.2.2.1⟩

/-- Claim C8: the shape-to-format resolver maps every shape of rank 1 through
6 to the canonical packed row-major tag of that rank and every shape of rank 0
or above 6 to the undefined format. -/
theorem claim_c8_format_resolver (shape : List Nat) :
    getFormatTag shape = specResolveFormat shape.length := by
  unfold getFormatTag specResolveFormat
  generalize shape.length = r
  rcases r with _ | _ | _ | _ | _ | _ | _ | n
  · decide
  · decide
  · decide
  · decide
  · decide
  · decide
  · decide
  · rw [if_pos (Or.inr (by omega)), if_neg (by omega)]
    rfl

/-- Claim C9: refuted code-side — the splat loop compares a byte offset
against an element count, so with 4-byte elements and 16 bytes it copies the
pattern once and leaves twelve zero bytes instead of repeating the pattern to
fill the buffer (and with 12 bytes it never terminates); the byte-sized and
verbatim-copy paths behave as the claim states. -/
theorem claim_c9_splat_bug :
    constantDataInit 16 4 [1, 2, 3, 4] true
      = some [1, 2, 3, 4, 0, 0, 0, 0, 0, 0, 0, 0, 0, 0, 0, 0] ∧
    specSplatData 16 4 [1, 2, 3, 4]
      = [1, 2, 3, 4, 1, 2, 3, 4, 1, 2, 3, 4, 1, 2, 3, 4] ∧
    constantDataInit 16 4 [1, 2, 3, 4] true ≠ some (specSplatData 16 4 [1, 2, 3, 4]) ∧
    constantDataInit 12 4 [1, 2, 3, 4] true = none ∧
    constantDataInit 8 1 [7] true = some (specSplatData 8 1 [7]) ∧
    constantDataInit 16 4 (List.replicate 16 3) false = some (List.replicate 16 3) := by
  decide

/-- Claim C10: the type query reports 32-bit float and the stored shape for
every Value (an INT32 constant included), `odla_CreateArgument` allocates
f32 native storage regardless of the declared type, and an INT32 constant's
native storage really is s32 while being reported as float. -/
theorem claim_c10_type_query (c cc : Comp) (type : ValueType) (id : String)
    (value : Value) (shape : List Nat) (ptr : Nat) (cid : Option String) :
    ((odla_CreateArgument c type id).2).mem.desc.dataType = DataType.f32 ∧
    (odla_GetValueType value).1 = Status.success ∧
    (odla_GetValueType value).2.element_type = OdlaElementType.float32 ∧
    (odla_GetValueType value).2.shape = value.shape ∧
    (odla_GetValueType ((odla_CreateConstant cc
        { element_type := OdlaElementType.int32, shape := shape } ptr cid).2)).2.element_type
      = OdlaElementType.float32 ∧
    ((odla_CreateConstant cc { element_type := OdlaElementType.int32, shape := shape }
        ptr cid).2).mem.desc.dataType = DataType.s32 :=
  ⟨rfl, rfl, rfl, rfl, rfl, rfl⟩

